import Mathlib

/-!
Verification of the Conway's Game of Life implementation in
`src/targets/6502/c64/life.c` against its design specification.

The screen buffer (`BYTE (*screen)[WIDTH]` at `SCREEN_BASE`) and the
neighbour-count scratch buffer (`BYTE _field_count[HEIGHT][WIDTH]`) are
modelled as total functions from integer coordinates to byte values; the
C loops over the interior area become folds over the scan-ordered list of
interior coordinates, updating the functional grids one cell at a time
exactly as the loop bodies do.
-/

set_option maxRecDepth 2000

namespace Life

/-- Character value representing a live cell (`#define ALIVE 88`). -/
def ALIVE : Nat := 88

/-- Character value representing a dead cell (`#define DEAD 32`). -/
def DEAD : Nat := 32

/-- Screen width in characters (`#define WIDTH 40`). -/
def WIDTH : Nat := 40

/-- Screen height in characters (`#define HEIGHT 25`). -/
def HEIGHT : Nat := 25

/-- A grid of byte values indexed by (row, column), modelling both the
screen buffer and the `_field_count` scratch buffer. -/
def Grid : Type := Int → Int → Nat

/-- Write value `v` at position `(y, x)` of a grid. -/
def upd (g : Grid) (y x : Int) (v : Nat) : Grid :=
  fun y' x' => if y' = y ∧ x' = x then v else g y' x'

/-- The global mutable state of the program: the `screen` buffer and the
`_field_count` scratch buffer. -/
structure State where
  screen : Grid
  field_count : Grid

/-- The cell `(y, x)` lies in the inner screen area scanned by the loops
`for (y = 1; y < HEIGHT - 1; y++) for (x = 1; x < WIDTH - 1; x++)`. -/
def Interior (y x : Int) : Prop :=
  1 ≤ y ∧ y < (HEIGHT : Int) - 1 ∧ 1 ≤ x ∧ x < (WIDTH : Int) - 1

instance (y x : Int) : Decidable (Interior y x) := by
  unfold Interior; infer_instance

/-- The interior coordinates in the scan order of the nested loops. -/
def interiorCells : List (Int × Int) :=
  (List.range (HEIGHT - 2)).flatMap fun i =>
    (List.range (WIDTH - 2)).map fun (j : Nat) => ((i : Int) + 1, (j : Int) + 1)

/-- Loop offsets `-1, 0, 1` used by `count_neighbours`. -/
def deltas : List Int := [-1, 0, 1]

/-- Embedding of `count_neighbours(y, x)`: scan the 3x3 neighbourhood in
the order of the two nested `for` loops, skip the centre, and increment
the counter for every cell equal to `ALIVE`. -/
def count_neighbours (g : Grid) (y x : Int) : Nat :=
  (deltas.flatMap fun dy => deltas.map fun dx => (dy, dx)).foldl
    (fun count d =>
      if d.1 = 0 ∧ d.2 = 0 then count
      else if g (y + d.1) (x + d.2) = ALIVE then count + 1 else count) 0

/-- The loop body of `count_field` applied to a list of cells: store the
neighbour count of each cell into the scratch grid. -/
def countCells (g : Grid) : List (Int × Int) → Grid → Grid
  | [], fc => fc
  | p :: rest, fc => countCells g rest (upd fc p.1 p.2 (count_neighbours g p.1 p.2))

/-- Embedding of `count_field()`: populate `_field_count` with neighbour
counts for the inner area; the screen is not modified. -/
def count_field (s : State) : State :=
  { s with field_count := countCells s.screen interiorCells s.field_count }

/-- The loop body of `calculate_field` at one cell: read the stored
count and the current screen value, kill a live cell with count `< 2` or
`> 3`, and turn any other cell into `ALIVE` when its count is `3`. -/
def updCell (fc : Grid) (g : Grid) (p : Int × Int) : Grid :=
  let count := fc p.1 p.2
  let current := g p.1 p.2
  if current = ALIVE then
    if count < 2 ∨ count > 3 then upd g p.1 p.2 DEAD else g
  else if count = 3 then upd g p.1 p.2 ALIVE
  else g

/-- The loop of `calculate_field` applied to a list of cells in order. -/
def applyCells (fc : Grid) : List (Int × Int) → Grid → Grid
  | [], g => g
  | p :: rest, g => applyCells fc rest (updCell fc g p)

/-- Embedding of `calculate_field()`: apply the Game of Life rules to the
inner screen area using the counts already stored in `_field_count`. -/
def calculate_field (s : State) : State :=
  { s with screen := applyCells s.field_count interiorCells s.screen }

/-- One iteration of the loop body of `calculate()`: `count_field()`
followed by `calculate_field()`. -/
def step (s : State) : State := calculate_field (count_field s)

/-- Embedding of `calculate()` with iteration count `n`: run the
generation step `n` times. -/
def calculate : Nat → State → State
  | 0, s => s
  | n + 1, s => calculate n (step s)

/-- The new value of one cell as a function of its current value and its
stored count, read off from the branches of `calculate_field`. -/
def cellNext (current count : Nat) : Nat :=
  if current = ALIVE then
    if count < 2 ∨ count > 3 then DEAD else current
  else if count = 3 then ALIVE
  else current

/-- The pure next-generation function: every interior cell is rewritten
by `cellNext` using a count taken from the grid as a whole; every other
cell is untouched. -/
def nextGen (g : Grid) : Grid := fun y x =>
  if Interior y x then cellNext (g y x) (count_neighbours g y x) else g y x

/-- Embedding of `init_screen()`: the random source is a stream of draws
`rng : Nat → Int`; the `k`-th processed interior cell consumes draw `k`
and is set to `DEAD` when the draw is below `_limit`, else `ALIVE`. -/
def initCells (rng : Nat → Int) (limit : Int) : List (Nat × (Int × Int)) → Grid → Grid
  | [], g => g
  | (k, p) :: rest, g =>
      initCells rng limit rest (upd g p.1 p.2 (if rng k < limit then DEAD else ALIVE))

/-- Embedding of `init_screen()` on the program state. -/
def init_screen (rng : Nat → Int) (limit : Int) (s : State) : State :=
  { s with screen := initCells rng limit interiorCells.enum s.screen }

/-- The eight immediate neighbours (N, S, E, W and the four diagonals)
of the cell `(y, x)`, as the specification describes them. -/
def neighbors (y x : Int) : List (Int × Int) :=
  [(y - 1, x - 1), (y - 1, x), (y - 1, x + 1),
   (y, x - 1), (y, x + 1),
   (y + 1, x - 1), (y + 1, x), (y + 1, x + 1)]

/-- Neighbour count as the spec words it: the number of the eight
immediate neighbours whose value is `ALIVE`. -/
def specCount (g : Grid) (y x : Int) : Nat :=
  (neighbors y x).countP fun p => g p.1 p.2 == ALIVE

/-- The transition rule exactly as the four bullets of the spec state
it: ALIVE with count outside `{2,3}` dies, ALIVE with count in `{2,3}`
remains ALIVE, non-ALIVE with count `3` is born, anything else remains
as it is. -/
def specRule (current count : Nat) : Nat :=
  if current = ALIVE ∧ (count < 2 ∨ count > 3) then DEAD
  else if current = ALIVE ∧ (count = 2 ∨ count = 3) then ALIVE
  else if current ≠ ALIVE ∧ count = 3 then ALIVE
  else current

/-- The pure reference next-generation function per the spec: every
interior cell is rewritten from the pre-step grid alone, every other
cell is untouched. -/
def specNextGen (g : Grid) : Grid := fun y x =>
  if Interior y x then specRule (g y x) (specCount g y x) else g y x

/-- A cell of the border ring: row `0`, row `HEIGHT - 1`, column `0` or
column `WIDTH - 1`. -/
def Border (y x : Int) : Prop :=
  0 ≤ y ∧ y < (HEIGHT : Int) ∧ 0 ≤ x ∧ x < (WIDTH : Int) ∧
    (y = 0 ∨ y = (HEIGHT : Int) - 1 ∨ x = 0 ∨ x = (WIDTH : Int) - 1)

instance (y x : Int) : Decidable (Border y x) := by
  unfold Border; infer_instance

/-- A grid shifted so that its origin lies at `(a, b)`. -/
def translate (g : Grid) (a b : Int) : Grid := fun y x => g (y - a) (x - b)

/-- A horizontal 3-cell line of `ALIVE` cells centred at the origin on
an otherwise `DEAD` plane. -/
def hLine0 : Grid := fun dy dx =>
  if dy = 0 ∧ (dx = -1 ∨ dx = 0 ∨ dx = 1) then ALIVE else DEAD

/-- A vertical 3-cell line of `ALIVE` cells centred at the origin on an
otherwise `DEAD` plane. -/
def vLine0 : Grid := fun dy dx =>
  if dx = 0 ∧ (dy = -1 ∨ dy = 0 ∨ dy = 1) then ALIVE else DEAD

/-- Screen whose only `ALIVE` cells are the horizontal 3-cell line
centred at `(a, b)`. -/
def hLine (a b : Int) : Grid := translate hLine0 a b

/-- Screen whose only `ALIVE` cells are the vertical 3-cell line
centred at `(a, b)`. -/
def vLine (a b : Int) : Grid := translate vLine0 a b

/-- Program state whose screen holds the horizontal blinker centred at
`(12, 20)`. -/
def blinkerState : State :=
  { screen := hLine 12 20, field_count := fun _ _ => 0 }

/-- Program state with an all-`DEAD` screen. -/
def allDead : State :=
  { screen := fun _ _ => DEAD, field_count := fun _ _ => 0 }

/-- Program state whose screen holds the byte `65` (neither `ALIVE` nor
`DEAD`) at cell `(5, 5)` and `DEAD` everywhere else, with stored count
`3` at every cell. -/
def oddState : State :=
  { screen := fun y x => if y = 5 ∧ x = 5 then 65 else DEAD,
    field_count := fun _ _ => 3 }

/- ## Basic lemmas about grid updates and the cell folds -/

theorem upd_self (g : Grid) (y x : Int) (v : Nat) : upd g y x v y x = v := by
  simp [upd]

theorem upd_other (g : Grid) (y x : Int) (v : Nat) (y' x' : Int)
    (h : ¬(y' = y ∧ x' = x)) : upd g y x v y' x' = g y' x' := by
  simp [upd, h]

theorem updCell_self (fc g : Grid) (p : Int × Int) :
    updCell fc g p p.1 p.2 = cellNext (g p.1 p.2) (fc p.1 p.2) := by
  unfold updCell cellNext
  by_cases hc : g p.1 p.2 = ALIVE <;> simp [hc]
  · by_cases h23 : fc p.1 p.2 < 2 ∨ fc p.1 p.2 > 3 <;> simp [h23, upd_self, hc]
  · by_cases h3 : fc p.1 p.2 = 3 <;> simp [h3, upd_self]

theorem updCell_other (fc g : Grid) (p : Int × Int) (y x : Int)
    (h : (y, x) ≠ p) : updCell fc g p y x = g y x := by
  have h' : ¬(y = p.1 ∧ x = p.2) := by
    intro hc
    exact h (Prod.ext hc.1 hc.2)
  unfold updCell
  by_cases hc : g p.1 p.2 = ALIVE <;> simp [hc]
  · by_cases h23 : fc p.1 p.2 < 2 ∨ fc p.1 p.2 > 3 <;> simp [h23, upd_other _ _ _ _ _ _ h']
  · by_cases h3 : fc p.1 p.2 = 3 <;> simp [h3, upd_other _ _ _ _ _ _ h']

theorem applyCells_not_mem (fc : Grid) (cells : List (Int × Int)) (g : Grid)
    (y x : Int) (h : (y, x) ∉ cells) :
    applyCells fc cells g y x = g y x := by
  induction cells generalizing g with
  | nil => rfl
  | cons p rest ih =>
      have hp : (y, x) ≠ p := fun hc => h (hc ▸ List.mem_cons_self p rest)
      have hr : (y, x) ∉ rest := fun hc => h (List.mem_cons_of_mem p hc)
      simp only [applyCells]
      rw [ih _ hr, updCell_other _ _ _ _ _ hp]

theorem applyCells_mem (fc : Grid) (cells : List (Int × Int)) (g : Grid)
    (y x : Int) (hnd : cells.Nodup) (h : (y, x) ∈ cells) :
    applyCells fc cells g y x = cellNext (g y x) (fc y x) := by
  induction cells generalizing g with
  | nil => cases h
  | cons p rest ih =>
      rcases List.mem_cons.mp h with hp | hr
      · have hnr : (y, x) ∉ rest := by
          rw [hp]; exact (List.nodup_cons.mp hnd).1
        simp only [applyCells]
        rw [applyCells_not_mem _ _ _ _ _ hnr]
        subst hp
        exact updCell_self fc g (y, x)
      · have hp : (y, x) ≠ p := by
          intro hc
          exact (List.nodup_cons.mp hnd).1 (hc ▸ hr)
        simp only [applyCells]
        rw [ih _ (List.nodup_cons.mp hnd).2 hr, updCell_other _ _ _ _ _ hp]

theorem countCells_not_mem (g : Grid) (cells : List (Int × Int)) (fc : Grid)
    (y x : Int) (h : (y, x) ∉ cells) :
    countCells g cells fc y x = fc y x := by
  induction cells generalizing fc with
  | nil => rfl
  | cons p rest ih =>
      have hp : ¬(y = p.1 ∧ x = p.2) := by
        intro hc
        have he : (y, x) = p := Prod.ext hc.1 hc.2
        exact h (he ▸ List.mem_cons_self p rest)
      have hr : (y, x) ∉ rest := fun hc => h (List.mem_cons_of_mem p hc)
      simp only [countCells]
      rw [ih _ hr, upd_other _ _ _ _ _ _ hp]

theorem countCells_mem (g : Grid) (cells : List (Int × Int)) (fc : Grid)
    (y x : Int) (hnd : cells.Nodup) (h : (y, x) ∈ cells) :
    countCells g cells fc y x = count_neighbours g y x := by
  induction cells generalizing fc with
  | nil => cases h
  | cons p rest ih =>
      rcases List.mem_cons.mp h with hp | hr
      · have hnr : (y, x) ∉ rest := by
          rw [hp]; exact (List.nodup_cons.mp hnd).1
        simp only [countCells]
        rw [countCells_not_mem _ _ _ _ _ hnr]
        subst hp
        exact upd_self fc y x _
      · simp only [countCells]
        exact ih _ (List.nodup_cons.mp hnd).2 hr

/- ## The interior scan list -/

theorem mem_interiorCells (y x : Int) : (y, x) ∈ interiorCells ↔ Interior y x := by
  unfold interiorCells Interior HEIGHT WIDTH
  simp only [List.mem_flatMap, List.mem_map, List.mem_range]
  constructor
  · rintro ⟨i, hi, j, hj, heq⟩
    rw [Prod.mk.injEq] at heq
    obtain ⟨hy, hx⟩ := heq
    omega
  · intro h
    refine ⟨(y - 1).toNat, by omega, (x - 1).toNat, by omega, ?_⟩
    rw [Prod.mk.injEq]
    constructor <;> omega

theorem interiorCells_nodup : interiorCells.Nodup := by
  unfold interiorCells
  refine List.nodup_flatMap.mpr ⟨?_, ?_⟩
  · intro i _
    refine List.Nodup.map ?_ (List.nodup_range _)
    intro a b hab
    rw [Prod.mk.injEq] at hab
    omega
  · refine List.Pairwise.imp ?_ (List.pairwise_lt_range _)
    intro a b hab p hpa hpb
    simp only [List.mem_map, List.mem_range] at hpa hpb
    obtain ⟨j, _, hj⟩ := hpa
    obtain ⟨j', _, hj'⟩ := hpb
    rw [← hj, Prod.mk.injEq] at hj'
    omega

attribute [irreducible] interiorCells

/- ## Characterising one generation step -/

theorem count_field_screen (s : State) : (count_field s).screen = s.screen := rfl

theorem count_field_count (s : State) (y x : Int) (h : Interior y x) :
    (count_field s).field_count y x = count_neighbours s.screen y x :=
  countCells_mem _ _ _ _ _ interiorCells_nodup ((mem_interiorCells y x).mpr h)

theorem calculate_field_screen_def (s : State) :
    (calculate_field s).screen = applyCells s.field_count interiorCells s.screen := rfl

theorem calculate_field_interior (s : State) (y x : Int) (h : Interior y x) :
    (calculate_field s).screen y x = cellNext (s.screen y x) (s.field_count y x) := by
  rw [calculate_field_screen_def]
  exact applyCells_mem s.field_count interiorCells s.screen y x interiorCells_nodup
    ((mem_interiorCells y x).mpr h)

theorem calculate_field_not_interior (s : State) (y x : Int) (h : ¬Interior y x) :
    (calculate_field s).screen y x = s.screen y x := by
  rw [calculate_field_screen_def]
  exact applyCells_not_mem s.field_count interiorCells s.screen y x
    (fun hm => h ((mem_interiorCells y x).mp hm))

theorem step_screen (s : State) : (step s).screen = nextGen s.screen := by
  funext y x
  by_cases h : Interior y x
  · show (calculate_field (count_field s)).screen y x = _
    rw [calculate_field_interior _ _ _ h, count_field_count _ _ _ h,
      count_field_screen, nextGen, if_pos h]
  · show (calculate_field (count_field s)).screen y x = _
    rw [calculate_field_not_interior _ _ _ h, count_field_screen, nextGen, if_neg h]

theorem calculate_eq_iterate (n : Nat) (s : State) : calculate n s = step^[n] s := by
  induction n generalizing s with
  | zero => rfl
  | succ n ih => rw [calculate, ih, Function.iterate_succ_apply]

theorem calculate_succ_outer (n : Nat) (s : State) :
    calculate (n + 1) s = step (calculate n s) := by
  rw [calculate_eq_iterate, calculate_eq_iterate, Function.iterate_succ_apply']

theorem calculate_screen_eq (n : Nat) (s : State) :
    (calculate n s).screen = nextGen^[n] s.screen := by
  induction n generalizing s with
  | zero => rfl
  | succ n ih =>
      rw [calculate, ih, step_screen, ← Function.iterate_succ_apply]

theorem calculate_not_interior (n : Nat) (s : State) (y x : Int) (h : ¬Interior y x) :
    (calculate n s).screen y x = s.screen y x := by
  induction n with
  | zero => rfl
  | succ n ih =>
      rw [calculate_succ_outer, step_screen, nextGen, if_neg h, ih]

/- ## The neighbour count as a pure count over the eight neighbours -/

theorem foldl_count (g : Grid) (y x : Int) (l : List (Int × Int)) (acc : Nat) :
    l.foldl (fun count d =>
      if d.1 = 0 ∧ d.2 = 0 then count
      else if g (y + d.1) (x + d.2) = ALIVE then count + 1 else count) acc
    = acc + l.countP fun d => !(d.1 == 0 && d.2 == 0) && (g (y + d.1) (x + d.2) == ALIVE) := by
  induction l generalizing acc with
  | nil => simp
  | cons a l ih =>
      simp only [List.foldl_cons, List.countP_cons, ih]
      by_cases h1 : a.1 = 0 ∧ a.2 = 0
      · rw [if_pos h1]
        have hb : (!(a.1 == 0 && a.2 == 0) && (g (y + a.1) (x + a.2) == ALIVE)) = false := by
          simp [h1.1, h1.2]
        rw [hb]
        have h4 : (if false = true then (1 : Nat) else 0) = 0 := rfl
        rw [h4]
        omega
      · by_cases h2 : g (y + a.1) (x + a.2) = ALIVE
        · rw [if_neg h1, if_pos h2]
          have hb : (!(a.1 == 0 && a.2 == 0) && (g (y + a.1) (x + a.2) == ALIVE)) = true := by
            simp [h2]
            exact not_and_or.mp h1
          rw [hb]
          have h3 : (if true = true then (1 : Nat) else 0) = 1 := rfl
          rw [h3]
          omega
        · rw [if_neg h1, if_neg h2]
          have hb : (!(a.1 == 0 && a.2 == 0) && (g (y + a.1) (x + a.2) == ALIVE)) = false := by
            simp [h2]
          rw [hb]
          have h4 : (if false = true then (1 : Nat) else 0) = 0 := rfl
          rw [h4]
          omega

theorem count_neighbours_eq_countP (g : Grid) (y x : Int) :
    count_neighbours g y x = (neighbors y x).countP fun p => g p.1 p.2 == ALIVE := by
  unfold count_neighbours
  rw [foldl_count]
  simp [deltas, neighbors, List.countP, List.countP.go, sub_eq_add_neg]

/- ## Equivalence of the code rule and the spec rule -/

theorem cellNext_eq_specRule (current count : Nat) :
    cellNext current count = specRule current count := by
  unfold cellNext specRule
  by_cases hA : current = ALIVE
  · by_cases h23 : count < 2 ∨ count > 3
    · simp [hA, h23]
    · have hc : count = 2 ∨ count = 3 := by omega
      simp [hA, h23, hc]
  · by_cases h3 : count = 3 <;> simp [hA, h3]

theorem nextGen_eq_specNextGen (g : Grid) : nextGen g = specNextGen g := by
  funext y x
  unfold nextGen specNextGen
  by_cases h : Interior y x
  · rw [if_pos h, if_pos h, cellNext_eq_specRule, count_neighbours_eq_countP]
    rfl
  · rw [if_neg h, if_neg h]

/- ## The initialization fold -/

theorem initCells_not_mem (rng : Nat → Int) (limit : Int)
    (cells : List (Nat × (Int × Int))) (g : Grid) (y x : Int)
    (h : (y, x) ∉ cells.map Prod.snd) :
    initCells rng limit cells g y x = g y x := by
  induction cells generalizing g with
  | nil => rfl
  | cons a rest ih =>
      obtain ⟨k, p⟩ := a
      have hp : ¬(y = p.1 ∧ x = p.2) := by
        intro hc
        have he : (y, x) = p := Prod.ext hc.1 hc.2
        apply h
        simp only [List.map_cons]
        exact he ▸ List.mem_cons_self _ _
      have hr : (y, x) ∉ rest.map Prod.snd := by
        intro hc
        apply h
        simp only [List.map_cons]
        exact List.mem_cons_of_mem _ hc
      simp only [initCells]
      rw [ih _ hr, upd_other _ _ _ _ _ _ hp]

theorem initCells_mem (rng : Nat → Int) (limit : Int)
    (cells : List (Nat × (Int × Int))) (g : Grid) (k : Nat) (y x : Int)
    (hnd : (cells.map Prod.snd).Nodup) (h : (k, (y, x)) ∈ cells) :
    initCells rng limit cells g y x = if rng k < limit then DEAD else ALIVE := by
  induction cells generalizing g with
  | nil => cases h
  | cons a rest ih =>
      rcases List.mem_cons.mp h with hp | hr
      · subst hp
        simp only [initCells]
        have hnr : (y, x) ∉ rest.map Prod.snd := by
          simp only [List.map_cons] at hnd
          exact (List.nodup_cons.mp hnd).1
        rw [initCells_not_mem _ _ _ _ _ _ hnr, upd_self]
      · obtain ⟨k', p⟩ := a
        simp only [initCells]
        apply ih
        · simp only [List.map_cons] at hnd
          exact (List.nodup_cons.mp hnd).2
        · exact hr

/- ## The blinker oscillator -/

theorem count_neighbours_translate (g : Grid) (a b y x : Int) :
    count_neighbours (translate g a b) y x = count_neighbours g (y - a) (x - b) := by
  rw [count_neighbours_eq_countP, count_neighbours_eq_countP]
  simp only [neighbors, List.countP_cons, List.countP_nil, translate]
  ring_nf

theorem cell_key_h : ∀ u : Nat, u < 45 → ∀ v : Nat, v < 75 →
    cellNext (hLine0 ((u : Int) - 22) ((v : Int) - 37))
        (count_neighbours hLine0 ((u : Int) - 22) ((v : Int) - 37))
      = vLine0 ((u : Int) - 22) ((v : Int) - 37) := by decide

theorem cell_key_v : ∀ u : Nat, u < 45 → ∀ v : Nat, v < 75 →
    cellNext (vLine0 ((u : Int) - 22) ((v : Int) - 37))
        (count_neighbours vLine0 ((u : Int) - 22) ((v : Int) - 37))
      = hLine0 ((u : Int) - 22) ((v : Int) - 37) := by decide

theorem nextGen_hLine (a b : Int) (ha2 : 2 ≤ a) (ha : a ≤ 22) (hb2 : 2 ≤ b)
    (hb : b ≤ 37) : nextGen (hLine a b) = vLine a b := by
  funext y x
  unfold nextGen
  by_cases hi : Interior y x
  · rw [if_pos hi]
    have hc : count_neighbours (hLine a b) y x = count_neighbours hLine0 (y - a) (x - b) :=
      count_neighbours_translate hLine0 a b y x
    rw [hc]
    unfold Interior HEIGHT WIDTH at hi
    have hu : ((y - a + 22).toNat : Int) - 22 = y - a := by omega
    have hv : ((x - b + 37).toNat : Int) - 37 = x - b := by omega
    have hk := cell_key_h (y - a + 22).toNat (by omega) (x - b + 37).toNat (by omega)
    rw [hu, hv] at hk
    exact hk
  · rw [if_neg hi]
    unfold Interior HEIGHT WIDTH at hi
    show hLine0 (y - a) (x - b) = vLine0 (y - a) (x - b)
    unfold hLine0 vLine0
    split_ifs with h1 h2 h2 <;> first | rfl | omega

theorem nextGen_vLine (a b : Int) (ha2 : 2 ≤ a) (ha : a ≤ 22) (hb2 : 2 ≤ b)
    (hb : b ≤ 37) : nextGen (vLine a b) = hLine a b := by
  funext y x
  unfold nextGen
  by_cases hi : Interior y x
  · rw [if_pos hi]
    have hc : count_neighbours (vLine a b) y x = count_neighbours vLine0 (y - a) (x - b) :=
      count_neighbours_translate vLine0 a b y x
    rw [hc]
    unfold Interior HEIGHT WIDTH at hi
    have hu : ((y - a + 22).toNat : Int) - 22 = y - a := by omega
    have hv : ((x - b + 37).toNat : Int) - 37 = x - b := by omega
    have hk := cell_key_v (y - a + 22).toNat (by omega) (x - b + 37).toNat (by omega)
    rw [hu, hv] at hk
    exact hk
  · rw [if_neg hi]
    unfold Interior HEIGHT WIDTH at hi
    show vLine0 (y - a) (x - b) = hLine0 (y - a) (x - b)
    unfold hLine0 vLine0
    split_ifs with h1 h2 h2 <;> first | rfl | omega

/- ## The claims -/

/-- C1: for every interior cell, the state after one generation step
(the loop body of `calculate`: `count_field` then `calculate_field`)
follows the Game of Life rule applied to the cell's previous state and
its neighbour count from the previous generation: a live cell with
count below 2 or above 3 dies, a live cell with count 2 or 3 survives,
a dead cell with count 3 is born, and a dead cell with count other
than 3 stays dead. -/
theorem interior_step_follows_rule (s : State) (y x : Int) (h : Interior y x) :
    ((s.screen y x = ALIVE ∧
        (count_neighbours s.screen y x < 2 ∨ count_neighbours s.screen y x > 3)) →
      (step s).screen y x = DEAD) ∧
    ((s.screen y x = ALIVE ∧
        (count_neighbours s.screen y x = 2 ∨ count_neighbours s.screen y x = 3)) →
      (step s).screen y x = ALIVE) ∧
    ((s.screen y x = DEAD ∧ count_neighbours s.screen y x = 3) →
      (step s).screen y x = ALIVE) ∧
    ((s.screen y x = DEAD ∧ count_neighbours s.screen y x ≠ 3) →
      (step s).screen y x = DEAD) := by
  have hs : (step s).screen y x
      = cellNext (s.screen y x) (count_neighbours s.screen y x) := by
    rw [step_screen, nextGen, if_pos h]
  refine ⟨?_, ?_, ?_, ?_⟩
  · rintro ⟨hc, hn⟩
    rw [hs]
    unfold cellNext
    rw [if_pos hc, if_pos hn]
  · rintro ⟨hc, hn⟩
    rw [hs]
    unfold cellNext
    rw [if_pos hc, if_neg (by omega)]
    exact hc
  · rintro ⟨hc, hn⟩
    have hA : s.screen y x ≠ ALIVE := by rw [hc]; decide
    rw [hs]
    unfold cellNext
    rw [if_neg hA, if_pos hn]
  · rintro ⟨hc, hn⟩
    have hA : s.screen y x ≠ ALIVE := by rw [hc]; decide
    rw [hs]
    unfold cellNext
    rw [if_neg hA, if_neg hn]
    exact hc

theorem interior_step_follows_rule_witness :
    Interior 1 1 ∧ allDead.screen 1 1 = DEAD ∧
      count_neighbours allDead.screen 1 1 ≠ 3 ∧ (step allDead).screen 1 1 = DEAD :=
  ⟨by decide, rfl, by decide,
    (interior_step_follows_rule allDead 1 1 (by decide)).2.2.2 ⟨rfl, by decide⟩⟩

/-- C2: one generation step, `count_field` followed by
`calculate_field`, equals the pure reference next-generation function
`specNextGen` computed entirely from the screen state at the start of
the step, so the result is independent of scan order and never uses a
stale or partially updated count. -/
theorem generation_step_refines_spec (s : State) :
    (calculate_field (count_field s)).screen = specNextGen s.screen := by
  have h := step_screen s
  unfold step at h
  rw [h, nextGen_eq_specNextGen]

/-- C3: `count_neighbours` returns exactly the number of the cell's
eight immediate neighbours whose value equals `ALIVE`, the result is at
most 8, and the counting phase does not modify the screen. -/
theorem count_neighbours_correct (g : Grid) (y x : Int) :
    count_neighbours g y x = (neighbors y x).countP (fun p => g p.1 p.2 == ALIVE) ∧
    count_neighbours g y x ≤ 8 ∧
    (∀ s : State, (count_field s).screen = s.screen) := by
  refine ⟨count_neighbours_eq_countP g y x, ?_, fun s => rfl⟩
  rw [count_neighbours_eq_countP]
  calc (neighbors y x).countP (fun p => g p.1 p.2 == ALIVE)
      ≤ (neighbors y x).length := List.countP_le_length _
    _ = 8 := rfl

/-- C4: border cells (row 0, row `HEIGHT - 1`, column 0, column
`WIDTH - 1`) hold exactly the value they held before the run, for every
starting state and every iteration count: the generation step never
writes to a border cell. -/
theorem border_preserved (s : State) (n : Nat) (y x : Int) (h : Border y x) :
    (calculate n s).screen y x = s.screen y x := by
  apply calculate_not_interior
  unfold Border at h
  unfold Interior
  omega

theorem border_preserved_witness :
    Border 0 0 ∧ (calculate 5 allDead).screen 0 0 = allDead.screen 0 0 :=
  ⟨by decide, border_preserved allDead 5 0 0 (by decide)⟩

/-- C5: `calculate` runs the generation step exactly `n` times in
sequence with no early termination, leaving the grid equal to the
`n`-th iterate of the single-generation step function, and with `n = 0`
the state is left identical to its input. -/
theorem calculate_iterates_step (n : Nat) (s : State) :
    calculate n s = step^[n] s ∧ calculate 0 s = s :=
  ⟨calculate_eq_iterate n s, rfl⟩

/-- C6: a screen whose interior holds exactly three `ALIVE` cells in a
horizontal line centred at `(a, b)` away from the border (all other
cells `DEAD`) becomes the corresponding vertical 3-cell line centred on
the same middle cell after one generation, and returns to the original
horizontal line after two generations. -/
theorem blinker_oscillates (a b : Int) (ha2 : 2 ≤ a) (ha : a ≤ 22) (hb2 : 2 ≤ b)
    (hb : b ≤ 37) (s : State) (hs : s.screen = hLine a b) :
    (calculate 1 s).screen = vLine a b ∧ (calculate 2 s).screen = hLine a b := by
  have h1 : (calculate 1 s).screen = vLine a b := by
    rw [calculate_screen_eq, hs, Function.iterate_one,
      nextGen_hLine a b ha2 ha hb2 hb]
  have h2 : (calculate 2 s).screen = hLine a b := by
    rw [calculate_screen_eq, hs]
    have he : nextGen^[2] (hLine a b) = nextGen (nextGen (hLine a b)) := rfl
    rw [he, nextGen_hLine a b ha2 ha hb2 hb, nextGen_vLine a b ha2 ha hb2 hb]
  exact ⟨h1, h2⟩

theorem blinker_oscillates_witness :
    (2 : Int) ≤ 12 ∧ (12 : Int) ≤ 22 ∧ (2 : Int) ≤ 20 ∧ (20 : Int) ≤ 37 ∧
      blinkerState.screen = hLine 12 20 ∧
      (calculate 1 blinkerState).screen = vLine 12 20 ∧
      (calculate 2 blinkerState).screen = hLine 12 20 := by
  refine ⟨by decide, by decide, by decide, by decide, rfl, ?_⟩
  exact blinker_oscillates 12 20 (by decide) (by decide) (by decide) (by decide)
    blinkerState rfl

/-- C7: an interior cell whose value is anything other than `ALIVE`
(including values that are neither the `ALIVE` nor the `DEAD` code) is
treated by `calculate_field` exactly as a dead cell: it becomes `ALIVE`
when its stored count equals 3 and otherwise keeps its value, never
becoming `ALIVE`. -/
theorem non_alive_treated_as_dead (s : State) (y x : Int) (h : Interior y x)
    (hne : s.screen y x ≠ ALIVE) :
    (calculate_field s).screen y x
      = if s.field_count y x = 3 then ALIVE else s.screen y x := by
  rw [calculate_field_interior s y x h]
  unfold cellNext
  rw [if_neg hne]

theorem non_alive_treated_as_dead_witness :
    Interior 5 5 ∧ oddState.screen 5 5 ≠ ALIVE ∧
      (calculate_field oddState).screen 5 5
        = if oddState.field_count 5 5 = 3 then ALIVE else oddState.screen 5 5 :=
  ⟨by decide, by decide, non_alive_treated_as_dead oddState 5 5 (by decide) (by decide)⟩

/-- C8: during initialization, each interior cell receives a value
drawn from the random source, set to `DEAD` when the draw is below the
threshold and `ALIVE` otherwise, and no cell outside the interior is
written. -/
theorem init_screen_contract (rng : Nat → Int) (limit : Int) (s : State) (y x : Int) :
    (Interior y x → ∃ k, (init_screen rng limit s).screen y x
        = if rng k < limit then DEAD else ALIVE) ∧
    (¬Interior y x → (init_screen rng limit s).screen y x = s.screen y x) := by
  constructor
  · intro h
    have hmem : (y, x) ∈ interiorCells := (mem_interiorCells y x).mpr h
    have hmem' : (y, x) ∈ interiorCells.enum.map Prod.snd := by
      rw [List.enum_map_snd]
      exact hmem
    obtain ⟨a, ha, hsnd⟩ := List.mem_map.mp hmem'
    obtain ⟨k, p⟩ := a
    refine ⟨k, ?_⟩
    show initCells rng limit interiorCells.enum s.screen y x = _
    have hnd : (interiorCells.enum.map Prod.snd).Nodup := by
      rw [List.enum_map_snd]
      exact interiorCells_nodup
    have hin : (k, (y, x)) ∈ interiorCells.enum := by
      cases hsnd
      exact ha
    exact initCells_mem rng limit interiorCells.enum s.screen k y x hnd hin
  · intro h
    show initCells rng limit interiorCells.enum s.screen y x = s.screen y x
    apply initCells_not_mem
    rw [List.enum_map_snd]
    exact fun hm => h ((mem_interiorCells y x).mp hm)

theorem init_screen_contract_witness :
    Interior 1 1 ∧
      ∃ _k : Nat, (init_screen (fun _ => 0) 1 allDead).screen 1 1
        = if (0 : Int) < 1 then DEAD else ALIVE :=
  ⟨by decide, (init_screen_contract (fun _ => 0) 1 allDead 1 1).1 (by decide)⟩

/-- C9: running the simulation driver for `m` generations and then for
`n` more leaves the grid in the same state as running it once for
`m + n` generations: `calculate` is pure iteration of the step with no
per-call state. -/
theorem calculate_additive (m n : Nat) (s : State) :
    calculate n (calculate m s) = calculate (m + n) s := by
  rw [calculate_eq_iterate, calculate_eq_iterate, calculate_eq_iterate,
    ← Function.iterate_add_apply, Nat.add_comm n m]

/-- C10: an interior cell whose value is neither `ALIVE` nor `DEAD`
keeps its exact byte across a generation step whenever its freshly
computed neighbour count differs from 3 — it is not normalized to
`DEAD` — and therefore persists unchanged across any number of
generations while its count stays different from 3. -/
theorem nonstandard_value_persists (s : State) (y x : Int) (n : Nat)
    (hi : Interior y x) (hA : s.screen y x ≠ ALIVE) (hD : s.screen y x ≠ DEAD)
    (hc : ∀ k, k < n → count_neighbours (calculate k s).screen y x ≠ 3) :
    (calculate n s).screen y x = s.screen y x := by
  induction n with
  | zero => rfl
  | succ n ih =>
      have h1 : (calculate n s).screen y x = s.screen y x :=
        ih fun k hk => hc k (Nat.lt_succ_of_lt hk)
      have h2 : count_neighbours (calculate n s).screen y x ≠ 3 :=
        hc n (Nat.lt_succ_self n)
      rw [calculate_succ_outer, step_screen, nextGen, if_pos hi, h1]
      unfold cellNext
      rw [if_neg hA, if_neg h2]

theorem nonstandard_value_persists_witness :
    Interior 5 5 ∧ oddState.screen 5 5 ≠ ALIVE ∧ oddState.screen 5 5 ≠ DEAD ∧
      (∀ k, k < 1 → count_neighbours (calculate k oddState).screen 5 5 ≠ 3) ∧
      (calculate 1 oddState).screen 5 5 = oddState.screen 5 5 :=
  ⟨by decide, by decide, by decide, by decide,
    nonstandard_value_persists oddState 5 5 1 (by decide) (by decide) (by decide)
      (by decide)⟩

end Life
